import Mathlib

/-!
Shallow embedding of the transcript post-processing core of
`transcribe_from_link.py`: the timestamp codec (`timestamp_to_seconds`,
`seconds_to_timestamp`), the caption-line pattern `line_regex` and the
segment-merging loop of `process_transcript`.

Machine model notes.  Python integers are unbounded, so they are embedded as
`Int`/`Nat` with no wrap-around.  Character classes (`\d`, `\s`, `int` digit
acceptance, `str.strip` whitespace) are modelled on their ASCII portions; the
inputs the program documents and the claims exercise are ASCII.  Lines are
produced by `str.splitlines`, so a classified line never contains a line
separator.
-/

namespace Transcribe

/-- ASCII decimal digit: the model of the regex class `\d` and of the digits
accepted by `int`. -/
def isDig (c : Char) : Bool := 48 ≤ c.toNat && c.toNat ≤ 57

/-- Numeric value of a digit character. -/
def digVal (c : Char) : Nat := c.toNat - 48

/-- Python whitespace (ASCII part), as used by `str.strip()` and the regex
class `\s`. -/
def isWS (c : Char) : Bool :=
  c = ' ' || c = '\t' || c = '\n' || c = '\r' || c = '\x0b' || c = '\x0c'

/-- Remove leading and trailing whitespace: the model of `str.strip()`. -/
def stripChars (cs : List Char) : List Char :=
  ((cs.dropWhile isWS).reverse.dropWhile isWS).reverse

/-- `str.strip()` on a `String`. -/
def pyStrip (s : String) : String := String.mk (stripChars s.data)

/-- Tail of the digit grammar of Python `int`: digits with single underscores
allowed between digits, continuing an accumulated value. -/
def goU (acc : Nat) : List Char → Option Nat
  | [] => some acc
  | c :: rest =>
    if c = '_' then
      match rest with
      | [] => none
      | c2 :: rest2 => if isDig c2 then goU (acc * 10 + digVal c2) rest2 else none
    else if isDig c then goU (acc * 10 + digVal c) rest
    else none

/-- Nonempty digit run, single underscores allowed between digits. -/
def parseDigitsU : List Char → Option Nat
  | [] => none
  | c :: rest => if isDig c then goU (digVal c) rest else none

/-- Value of a digit run (proof-side abbreviation). -/
def digitsVal (ds : List Char) : Nat :=
  ds.foldl (fun a c => a * 10 + digVal c) 0

/-- Model of Python `int(s)`: optional surrounding whitespace, an optional
sign, then a nonempty digit run with optional single underscores between
digits.  Returns `none` where Python `int` raises `ValueError`. -/
def pyInt (s : String) : Option Int :=
  match stripChars s.data with
  | [] => none
  | c :: rest =>
    if c = '+' then (parseDigitsU rest).map Int.ofNat
    else if c = '-' then (parseDigitsU rest).map (fun n => -(n : Int))
    else (parseDigitsU (c :: rest)).map Int.ofNat

/-- Python `str.split` on the single-character separator `:` (keeps empty
fields, always returns at least one field). -/
def splitOnColon : List Char → List (List Char)
  | [] => [[]]
  | c :: rest =>
    if c = ':' then [] :: splitOnColon rest
    else
      match splitOnColon rest with
      | [] => [[c]]
      | f :: fs => (c :: f) :: fs

/-- Model of `list(map(int, fields))` under the surrounding `try`: any field
on which `int` raises makes the whole conversion fail. -/
def mapIntList : List (List Char) → Option (List Int)
  | [] => some []
  | f :: rest =>
    match pyInt (String.mk f) with
    | none => none
    | some v =>
      match mapIntList rest with
      | none => none
      | some vs => some (v :: vs)

/-- `timestamp_to_seconds` from the source: drop everything from the first
`.` on (`ts_str.split(".")[0]`), split the remainder on colons, convert every
field with `int`; 3 fields are hours:minutes:seconds, 2 fields are
minutes:seconds, and any other field count, or a failing conversion, yields
`none` (the `except` arm / the implicit `return None`). -/
def timestamp_to_seconds (ts_str : String) : Option Int :=
  match mapIntList (splitOnColon (ts_str.data.takeWhile (fun c => c ≠ '.'))) with
  | none => none
  | some [h, m, s] => some (h * 3600 + m * 60 + s)
  | some [m, s] => some (m * 60 + s)
  | some _ => none

/-- The decimal digit characters. -/
def digChar : Nat → Char
  | 0 => '0'
  | 1 => '1'
  | 2 => '2'
  | 3 => '3'
  | 4 => '4'
  | 5 => '5'
  | 6 => '6'
  | 7 => '7'
  | 8 => '8'
  | 9 => '9'
  | _ => '?'

/-- Decimal digits of a number, most significant first; written with fuel so
that it is structurally recursive and reduces in the kernel.  Any fuel above
the argument is adequate (`natDigitsAux_spec`). -/
def natDigitsAux : Nat → Nat → List Char
  | 0, _ => []
  | fuel + 1, n =>
    if n < 10 then [digChar n]
    else natDigitsAux fuel (n / 10) ++ [digChar (n % 10)]

/-- Decimal rendering of a natural number, as a character list. -/
def natDigits (n : Nat) : List Char := natDigitsAux (n + 1) n

/-- Model of the format specifier `{x:02}`: decimal rendering, left-padded
with one zero when it is a single digit. -/
def padChars2 (n : Nat) : List Char :=
  if n < 10 then '0' :: natDigits n else natDigits n

/-- `{x:02}` as a `String`. -/
def pad2 (n : Nat) : String := String.mk (padChars2 n)

/-- The head of `seconds_to_timestamp`: `None` and negative inputs are
clamped to zero (`if total_seconds is None or total_seconds < 0`). -/
def s2tClamp (total_seconds : Option Int) : Nat :=
  match total_seconds with
  | none => 0
  | some n => if n < 0 then 0 else n.toNat

/-- `seconds_to_timestamp` from the source: clamp, then `divmod` into hours,
minutes and seconds, each rendered with `{:02}` and joined with colons. -/
def seconds_to_timestamp (total_seconds : Option Int) : String :=
  let t : Nat := s2tClamp total_seconds
  pad2 (t / 3600) ++ ":" ++ pad2 (t % 3600 / 60) ++ ":" ++ pad2 (t % 3600 % 60)

/-!
The caption pattern.  The source compiles

  `^\[((?:\d{2}:)?\d{2}:\d{2}(?:\.\d+)?)\]\s*([^:]+?):\s*(.*)$`

and uses `line_regex.match(line)`.  The timestamp part is deterministic once
backtracking is unfolded: after `[`, the body must be `dd:dd`, optionally
followed by `:dd` (if a `:` follows but two digits do not, every branch of
the alternation fails, since the two-field branch then requires `]` at the
`:`), optionally followed by `.` and a maximal digit run (if the run is not
followed by `]`, shorter runs end before a digit and the no-fraction branch
ends before `.`, so every branch fails), then `]`.

After `]`, `\s*([^:]+?):` with a greedy `\s*` and a lazy one-or-more group of
non-colon characters matches exactly when the remainder contains a `:` that
is not its first character: the lazy group stops at the first colon, and when
only whitespace stands before that colon, `\s*` gives one character back to
the group.  `\s*(.*)$` then takes the remainder of the (newline-free) line,
with its leading whitespace consumed by `\s*`.
-/

/-- Two regex `\d` characters. -/
def matchTwoDigits : List Char → Option (List Char × List Char)
  | a :: b :: rest => if isDig a && isDig b then some ([a, b], rest) else none
  | _ => none

/-- A literal colon. -/
def matchColon : List Char → Option (List Char)
  | c :: rest => if c = ':' then some rest else none
  | [] => none

/-- Maximal digit run (the greedy `\d+`). -/
def takeDigits : List Char → List Char × List Char
  | [] => ([], [])
  | c :: rest =>
    if isDig c then
      let p := takeDigits rest
      (c :: p.1, p.2)
    else ([], c :: rest)

/-- Optional third two-digit timestamp field (the effect of the alternation
`(?:\d{2}:)?` once the leading `dd:dd` is fixed). -/
def matchOptThird (r : List Char) : Option (List Char × List Char) :=
  match matchColon r with
  | none => some ([], r)
  | some r4 =>
    match matchTwoDigits r4 with
    | none => none
    | some (d3, r5) => some (':' :: d3, r5)

/-- Optional fractional-seconds suffix `(?:\.\d+)?`. -/
def matchOptFrac (r : List Char) : Option (List Char × List Char) :=
  match r with
  | [] => some ([], [])
  | c :: rest =>
    if c = '.' then
      let p := takeDigits rest
      if p.1.isEmpty then none else some ('.' :: p.1, p.2)
    else some ([], r)

/-- The timestamp body followed by the closing `]`: returns the text of
capture group 1 and the characters after `]`. -/
def matchBracketTs (cs : List Char) : Option (List Char × List Char) :=
  match matchTwoDigits cs with
  | none => none
  | some (d1, r1) =>
    match matchColon r1 with
    | none => none
    | some r2 =>
      match matchTwoDigits r2 with
      | none => none
      | some (d2, r3) =>
        match matchOptThird r3 with
        | none => none
        | some (t3, r5) =>
          match matchOptFrac r5 with
          | none => none
          | some (fr, r6) =>
            match r6 with
            | [] => none
            | c :: r7 =>
              if c = ']' then some (d1 ++ ':' :: d2 ++ t3 ++ fr, r7) else none

/-- Split at the first colon: `some (before, after)` when one exists. -/
def findColonSplit : List Char → Option (List Char × List Char)
  | [] => none
  | c :: rest =>
    if c = ':' then some ([], rest)
    else
      match findColonSplit rest with
      | none => none
      | some (b, a) => some (c :: b, a)

/-- The suffix pattern `\s*([^:]+?):\s*(.*)$` on the characters after `]`:
capture groups 2 (raw speaker) and 3 (text already shorn of its leading
whitespace by the second `\s*`). -/
def matchSpeakerText (rest : List Char) : Option (List Char × List Char) :=
  match findColonSplit rest with
  | none => none
  | some (before, after) =>
    if before.isEmpty then none
    else
      let sp := before.dropWhile isWS
      let g2 := if sp.isEmpty then before.drop (before.length - 1) else sp
      some (g2, after.dropWhile isWS)

/-- `line_regex.match(line)` with its three capture groups. -/
def captionMatch (line : String) : Option (String × String × String) :=
  match line.data with
  | [] => none
  | c :: cs =>
    if c = '[' then
      match matchBracketTs cs with
      | none => none
      | some (ts, rest) =>
        match matchSpeakerText rest with
        | none => none
        | some (g2, g3) => some (String.mk ts, String.mk g2, String.mk g3)
    else none

/-- The four mutable loop variables of `process_transcript` plus its
`output_lines` accumulator. -/
structure PState where
  output_lines : List String
  current_segment_start_ts_str : Option String
  current_segment_start_seconds : Option Int
  current_speaker : Option String
  current_text_parts : List String
deriving DecidableEq

/-- The state at the top of the loop. -/
def initState : PState := ⟨[], none, none, none, []⟩

/-- The flush expression
`f"[{current_segment_start_ts_str}] {current_speaker}: {segment_text}"` with
`segment_text = ' '.join(filter(None, current_text_parts))`.  A Python
f-string renders `None` as the text `None`; the getD arms are exercised only
from states the loop cannot reach. -/
def flushLine (st : PState) : String :=
  "[" ++ st.current_segment_start_ts_str.getD "None" ++ "] "
    ++ st.current_speaker.getD "None" ++ ": "
    ++ String.intercalate " " (st.current_text_parts.filter (fun t => t ≠ ""))

/-- One iteration of the `for i, line in enumerate(lines)` body. -/
def processLine (max_segment_duration : Int) (st : PState) (rawLine : String) :
    PState :=
  let line := pyStrip rawLine
  if line = "" then st
  else
    match captionMatch line with
    | none =>
      let st1 :=
        if st.current_speaker.isSome then
          { output_lines := st.output_lines ++ [flushLine st],
            current_segment_start_ts_str := none,
            current_segment_start_seconds := none,
            current_speaker := none,
            current_text_parts := [] }
        else st
      { st1 with output_lines := st1.output_lines ++ [line] }
    | some (ts_str, speaker_raw, text_raw) =>
      let speaker := pyStrip speaker_raw
      let text := pyStrip text_raw
      match timestamp_to_seconds ts_str with
      | none => st
      | some current_seconds =>
        let start_new_segment :=
          match st.current_speaker with
          | none => true
          | some cs =>
            if speaker ≠ cs then true
            else
              match st.current_segment_start_seconds with
              | none => false
              | some t0 => decide (current_seconds - t0 > max_segment_duration)
        if start_new_segment then
          { output_lines :=
              if st.current_speaker.isSome then st.output_lines ++ [flushLine st]
              else st.output_lines,
            current_segment_start_ts_str :=
              some (seconds_to_timestamp (some current_seconds)),
            current_segment_start_seconds := some current_seconds,
            current_speaker := some speaker,
            current_text_parts := [text] }
        else
          if text = "" then st
          else { st with current_text_parts := st.current_text_parts ++ [text] }

/-- The code after the loop: flush a still-open segment. -/
def flushFinal (st : PState) : List String :=
  if st.current_speaker.isSome then st.output_lines ++ [flushLine st]
  else st.output_lines

/-- The whole loop and final flush, on an already split line list. -/
def process_lines (max_segment_duration : Int) (lines : List String) :
    List String :=
  flushFinal (lines.foldl (processLine max_segment_duration) initState)

/-- Python `str.splitlines` restricted to the separators `\n`, `\r\n` and
`\r` (a terminating separator produces no trailing empty line). -/
def splitlinesGo (acc : List Char) : List Char → List (List Char)
  | [] => [acc.reverse]
  | ['\n'] => [acc.reverse]
  | ['\r'] => [acc.reverse]
  | ['\r', '\n'] => [acc.reverse]
  | '\r' :: '\n' :: rest => acc.reverse :: splitlinesGo [] rest
  | '\n' :: rest => acc.reverse :: splitlinesGo [] rest
  | '\r' :: rest => acc.reverse :: splitlinesGo [] rest
  | c :: rest => splitlinesGo (c :: acc) rest

/-- `str.splitlines` (empty text has no lines). -/
def splitlines : List Char → List (List Char)
  | [] => []
  | c :: rest => splitlinesGo [] (c :: rest)

/-- `process_transcript` from the source: strip the input, split it into
lines, fold the loop body over them, flush, and join with newlines. -/
def process_transcript (input_text : String) (max_segment_duration : Int := 30) :
    String :=
  String.intercalate "\n"
    (process_lines max_segment_duration
      ((splitlines (stripChars input_text.data)).map String.mk))

/-!
Supporting lemmas: characters, digit runs, decimal rendering, splitting.
-/

lemma isDig_toNat {c : Char} (h : isDig c = true) : 48 ≤ c.toNat ∧ c.toNat ≤ 57 := by
  simpa [isDig] using h

lemma isDig_ne {c d : Char} (h : isDig c = true)
    (hd : d.toNat < 48 ∨ 57 < d.toNat) : c ≠ d := by
  rintro rfl
  have := isDig_toNat h
  omega

lemma isDig_not_ws {c : Char} (h : isDig c = true) : isWS c = false := by
  cases hq : isWS c
  · rfl
  · exfalso
    simp only [isWS, Bool.or_eq_true, decide_eq_true_eq] at hq
    have h2 := isDig_toNat h
    rcases hq with ((((h1 | h1) | h1) | h1) | h1) | h1 <;> subst h1 <;>
      revert h2 <;> decide

lemma digChar_spec {m : Nat} (h : m < 10) :
    isDig (digChar m) = true ∧ digVal (digChar m) = m := by
  interval_cases m <;> exact ⟨by decide, by decide⟩

lemma goU_digits {ds : List Char} (h : ∀ c ∈ ds, isDig c = true) (acc : Nat) :
    goU acc ds = some (ds.foldl (fun a c => a * 10 + digVal c) acc) := by
  induction ds generalizing acc with
  | nil => simp [goU]
  | cons c rest ih =>
    have hc : isDig c = true := h c (List.mem_cons_self c rest)
    have hcu : c ≠ '_' := isDig_ne hc (by decide)
    rw [goU.eq_def]
    simp [hcu, hc, ih (fun x hx => h x (List.mem_cons_of_mem c hx))]

lemma parseDigitsU_digits {ds : List Char} (hne : ds ≠ [])
    (h : ∀ c ∈ ds, isDig c = true) : parseDigitsU ds = some (digitsVal ds) := by
  cases ds with
  | nil => exact absurd rfl hne
  | cons c rest =>
    have hc : isDig c = true := h c (List.mem_cons_self c rest)
    have hg := goU_digits (fun x hx => h x (List.mem_cons_of_mem c hx)) (digVal c)
    simp [parseDigitsU, hc, hg, digitsVal]

lemma natDigitsAux_spec : ∀ fuel n : Nat, n < fuel →
    (∀ c ∈ natDigitsAux fuel n, isDig c = true) ∧ natDigitsAux fuel n ≠ [] ∧
      digitsVal (natDigitsAux fuel n) = n := by
  intro fuel
  induction fuel with
  | zero => intro n h; omega
  | succ fuel ih =>
    intro n h
    by_cases h10 : n < 10
    · have hd := digChar_spec h10
      refine ⟨?_, ?_, ?_⟩ <;> simp [natDigitsAux, h10, hd.1, digitsVal, hd.2]
    · have hdiv : n / 10 < fuel := by omega
      obtain ⟨hall, hne, hval⟩ := ih (n / 10) hdiv
      have hm : n % 10 < 10 := Nat.mod_lt _ (by omega)
      have hdm := digChar_spec hm
      refine ⟨?_, ?_, ?_⟩
      · intro c hc
        simp only [natDigitsAux, if_neg h10, List.mem_append,
          List.mem_singleton] at hc
        rcases hc with hc | hc
        · exact hall c hc
        · subst hc; exact hdm.1
      · simp [natDigitsAux, h10]
      · have hsplit : digitsVal (natDigitsAux fuel (n / 10) ++ [digChar (n % 10)])
            = digitsVal (natDigitsAux fuel (n / 10)) * 10 + digVal (digChar (n % 10)) := by
          simp [digitsVal, List.foldl_append]
        simp only [natDigitsAux, if_neg h10]
        rw [hsplit, hval, hdm.2]
        omega

lemma natDigits_spec (n : Nat) :
    (∀ c ∈ natDigits n, isDig c = true) ∧ natDigits n ≠ [] ∧
      digitsVal (natDigits n) = n :=
  natDigitsAux_spec (n + 1) n (Nat.lt_succ_self n)

lemma padChars2_digits (n : Nat) : ∀ c ∈ padChars2 n, isDig c = true := by
  intro c hc
  by_cases h : n < 10
  · simp only [padChars2, if_pos h, List.mem_cons] at hc
    rcases hc with hc | hc
    · subst hc; decide
    · exact (natDigits_spec n).1 c hc
  · simp only [padChars2, if_neg h] at hc
    exact (natDigits_spec n).1 c hc

lemma padChars2_ne_nil (n : Nat) : padChars2 n ≠ [] := by
  by_cases h : n < 10
  · simp [padChars2, h]
  · simp only [padChars2, if_neg h]
    exact (natDigits_spec n).2.1

lemma digitsVal_padChars2 (n : Nat) : digitsVal (padChars2 n) = n := by
  by_cases h : n < 10
  · have h0 : digVal '0' = 0 := by decide
    simp only [padChars2, if_pos h, digitsVal, List.foldl_cons, h0]
    have := (natDigits_spec n).2.2
    simpa [digitsVal] using this
  · simp only [padChars2, if_neg h]
    exact (natDigits_spec n).2.2

lemma dropWhile_eq_self {p : Char → Bool} {l : List Char}
    (h : ∀ c ∈ l, p c = false) : l.dropWhile p = l := by
  cases l with
  | nil => rfl
  | cons c rest =>
    rw [List.dropWhile_cons_of_neg]
    simp [h c (List.mem_cons_self c rest)]

lemma stripChars_eq_self {l : List Char} (h : ∀ c ∈ l, isWS c = false) :
    stripChars l = l := by
  unfold stripChars
  rw [dropWhile_eq_self h,
    dropWhile_eq_self (fun c hc => h c (List.mem_reverse.mp hc)),
    List.reverse_reverse]

lemma pyInt_digits {l : List Char} (hne : l ≠ [])
    (h : ∀ c ∈ l, isDig c = true) :
    pyInt (String.mk l) = some (digitsVal l : Int) := by
  have hs : stripChars l = l := stripChars_eq_self (fun c hc => isDig_not_ws (h c hc))
  cases l with
  | nil => exact absurd rfl hne
  | cons c rest =>
    have hc : isDig c = true := h c (List.mem_cons_self c rest)
    have hplus : c ≠ '+' := isDig_ne hc (by decide)
    have hminus : c ≠ '-' := isDig_ne hc (by decide)
    simp [pyInt, hs, hplus, hminus, parseDigitsU_digits hne h]

lemma pyInt_pad2 (n : Nat) : pyInt (pad2 n) = some (n : Int) := by
  have := pyInt_digits (padChars2_ne_nil n) (padChars2_digits n)
  unfold pad2
  rw [this, digitsVal_padChars2]

lemma splitOnColon_no_colon {l : List Char} (h : ∀ c ∈ l, c ≠ ':') :
    splitOnColon l = [l] := by
  induction l with
  | nil => rfl
  | cons c rest ih =>
    have hc := h c (List.mem_cons_self c rest)
    simp [splitOnColon, hc, ih (fun x hx => h x (List.mem_cons_of_mem c hx))]

lemma splitOnColon_append {a : List Char} (b : List Char)
    (h : ∀ c ∈ a, c ≠ ':') :
    splitOnColon (a ++ ':' :: b) = a :: splitOnColon b := by
  induction a with
  | nil => simp [splitOnColon]
  | cons c rest ih =>
    have hc := h c (List.mem_cons_self c rest)
    have h2 := ih (fun x hx => h x (List.mem_cons_of_mem c hx))
    simp [splitOnColon, hc, h2]

lemma takeWhile_all {p : Char → Bool} {l : List Char}
    (h : ∀ c ∈ l, p c = true) : l.takeWhile p = l := by
  induction l with
  | nil => rfl
  | cons c rest ih =>
    rw [List.takeWhile_cons_of_pos (h c (List.mem_cons_self c rest))]
    rw [ih (fun x hx => h x (List.mem_cons_of_mem c hx))]

lemma takeWhile_all_append {p : Char → Bool} {l1 : List Char} (l2 : List Char)
    (h : ∀ c ∈ l1, p c = true) :
    (l1 ++ l2).takeWhile p = l1 ++ l2.takeWhile p := by
  induction l1 with
  | nil => rfl
  | cons c rest ih =>
    rw [List.cons_append, List.takeWhile_cons_of_pos (h c (List.mem_cons_self c rest))]
    rw [ih (fun x hx => h x (List.mem_cons_of_mem c hx)), List.cons_append]

lemma timestamp_parse_hms (hN mN sN : Nat) :
    timestamp_to_seconds (pad2 hN ++ ":" ++ pad2 mN ++ ":" ++ pad2 sN)
      = some ((hN : Int) * 3600 + (mN : Int) * 60 + (sN : Int)) := by
  have hdata : (pad2 hN ++ ":" ++ pad2 mN ++ ":" ++ pad2 sN).data
      = padChars2 hN ++ ':' :: (padChars2 mN ++ ':' :: padChars2 sN) := by
    simp [pad2, String.data_append]
  have hnodotH : ∀ c ∈ padChars2 hN ++ ':' :: (padChars2 mN ++ ':' :: padChars2 sN),
      (fun c => decide (c ≠ '.')) c = true := by
    intro c hc
    simp only [List.mem_append, List.mem_cons] at hc
    simp only [decide_eq_true_eq]
    rcases hc with hc | hc | hc
    · exact isDig_ne (padChars2_digits hN c hc) (by decide)
    · subst hc; decide
    · rcases hc with hc | hc | hc
      · exact isDig_ne (padChars2_digits mN c hc) (by decide)
      · subst hc; decide
      · exact isDig_ne (padChars2_digits sN c hc) (by decide)
  have hsplit : splitOnColon (padChars2 hN ++ ':' :: (padChars2 mN ++ ':' :: padChars2 sN))
      = [padChars2 hN, padChars2 mN, padChars2 sN] := by
    rw [splitOnColon_append _ (fun c hc => isDig_ne (padChars2_digits hN c hc) (by decide))]
    rw [splitOnColon_append _ (fun c hc => isDig_ne (padChars2_digits mN c hc) (by decide))]
    rw [splitOnColon_no_colon (fun c hc => isDig_ne (padChars2_digits sN c hc) (by decide))]
  unfold timestamp_to_seconds
  rw [hdata, takeWhile_all hnodotH, hsplit]
  have hint : ∀ k : Nat, pyInt (String.mk (padChars2 k)) = some (k : Int) :=
    fun k => pyInt_pad2 k
  simp [mapIntList, hint]

theorem seconds_clamped_eq (x : Option Int) :
    seconds_to_timestamp x
      = pad2 (s2tClamp x / 3600) ++ ":" ++ pad2 (s2tClamp x % 3600 / 60)
        ++ ":" ++ pad2 (s2tClamp x % 3600 % 60) := rfl

lemma natDigits_eq (n : Nat) : natDigits n = natDigitsAux (n + 1) n := rfl

lemma natDigitsAux_succ (fuel n : Nat) :
    natDigitsAux (fuel + 1) n
      = if n < 10 then [digChar n]
        else natDigitsAux fuel (n / 10) ++ [digChar (n % 10)] := rfl

lemma natDigitsAux_small {fuel m : Nat} (hf : 0 < fuel) (h : m < 10) :
    natDigitsAux fuel m = [digChar m] := by
  cases fuel with
  | zero => omega
  | succ f => rw [natDigitsAux_succ, if_pos h]

lemma natDigits_small {n : Nat} (h : n < 10) : natDigits n = [digChar n] := by
  rw [natDigits_eq, natDigitsAux_succ, if_pos h]

lemma natDigits_two {n : Nat} (h1 : 10 ≤ n) (h2 : n < 100) :
    natDigits n = [digChar (n / 10), digChar (n % 10)] := by
  rw [natDigits_eq, natDigitsAux_succ, if_neg (by omega)]
  rw [natDigitsAux_small (by omega) (by omega)]
  rfl

lemma padChars2_len_two {n : Nat} (h : n < 100) : (padChars2 n).length = 2 := by
  by_cases h10 : n < 10
  · simp [padChars2, h10, natDigits_small h10]
  · simp [padChars2, h10, natDigits_two (by omega) h]

lemma two_le_padChars2_len (n : Nat) : 2 ≤ (padChars2 n).length := by
  by_cases h : n < 10
  · simp [padChars2, h, natDigits_small h]
  · have hne := (natDigitsAux_spec n (n / 10) (by omega)).2.1
    have hbig : natDigits n = natDigitsAux n (n / 10) ++ [digChar (n % 10)] := by
      cases n with
      | zero => omega
      | succ m => rw [natDigits_eq, natDigitsAux_succ, if_neg h]
    have hpos : 0 < (natDigitsAux n (n / 10)).length := List.length_pos.mpr hne
    simp only [padChars2, if_neg h, hbig, List.length_append, List.length_cons,
      List.length_nil]
    omega

lemma pad2_length (n : Nat) : (pad2 n).length = (padChars2 n).length := rfl

/-- C7: re-parsing and re-formatting the output of `seconds_to_timestamp`
returns that output unchanged, for every input of `seconds_to_timestamp`
(null included): one normalization pass is a fixed point of the codec. -/
theorem c7_format_parse_format_fixed (x : Option Int) :
    seconds_to_timestamp (timestamp_to_seconds (seconds_to_timestamp x))
      = seconds_to_timestamp x := by
  have hx := seconds_clamped_eq x
  set t := s2tClamp x with htdef
  have hparse := timestamp_parse_hms (t / 3600) (t % 3600 / 60) (t % 3600 % 60)
  rw [hx, hparse]
  have hnat : t / 3600 * 3600 + t % 3600 / 60 * 60 + t % 3600 % 60 = t := by omega
  have hval : ((t / 3600 : Nat) : Int) * 3600 + ((t % 3600 / 60 : Nat) : Int) * 60
      + ((t % 3600 % 60 : Nat) : Int) = (t : Int) := by exact_mod_cast hnat
  rw [hval]
  have h0 : ¬((t : Int) < 0) := by
    simp
  have hcl : s2tClamp (some (t : Int)) = t := by
    simp [s2tClamp, h0]
  rw [seconds_clamped_eq (some (t : Int)), hcl]

/-- Witness for C7 at a concrete input. -/
theorem c7_format_parse_format_fixed_witness :
    seconds_to_timestamp (timestamp_to_seconds (seconds_to_timestamp (some 62)))
      = seconds_to_timestamp (some 62) :=
  c7_format_parse_format_fixed (some 62)

/-- C9: `seconds_to_timestamp` is total; null input and negative inputs are
clamped to zero giving `00:00:00`, and every output is the zero-padded
`HH:MM:SS` rendering of the clamped input value itself: the rendered fields
satisfy `h * 3600 + m * 60 + s = s2tClamp x` with minutes and seconds below
60 and exactly two characters wide, hours at least two characters wide. -/
theorem c9_format_total_clamped :
    seconds_to_timestamp none = "00:00:00" ∧
    (∀ x : Int, x < 0 → seconds_to_timestamp (some x) = "00:00:00") ∧
    (∀ x : Option Int, ∃ h m s : Nat, m < 60 ∧ s < 60 ∧
      h * 3600 + m * 60 + s = s2tClamp x ∧
      (pad2 m).length = 2 ∧ (pad2 s).length = 2 ∧ 2 ≤ (pad2 h).length ∧
      seconds_to_timestamp x = pad2 h ++ ":" ++ pad2 m ++ ":" ++ pad2 s) := by
  refine ⟨by decide, ?_, ?_⟩
  · intro x hx
    have hcl : s2tClamp (some x) = 0 := by simp [s2tClamp, hx]
    rw [seconds_clamped_eq (some x), hcl]
    decide
  · intro x
    refine ⟨s2tClamp x / 3600, s2tClamp x % 3600 / 60, s2tClamp x % 3600 % 60,
      by omega, by omega, by omega, ?_, ?_, ?_, seconds_clamped_eq x⟩
    · rw [pad2_length]; exact padChars2_len_two (by omega)
    · rw [pad2_length]; exact padChars2_len_two (by omega)
    · rw [pad2_length]; exact two_le_padChars2_len _

/-- Witness for C9 at concrete inputs. -/
theorem c9_format_total_clamped_witness :
    seconds_to_timestamp (some (-5)) = "00:00:00" ∧
    seconds_to_timestamp none = "00:00:00" :=
  ⟨c9_format_total_clamped.2.1 (-5) (by decide), c9_format_total_clamped.1⟩

lemma mapIntList_length {l : List (List Char)} {vs : List Int}
    (h : mapIntList l = some vs) : vs.length = l.length := by
  induction l generalizing vs with
  | nil =>
    simp only [mapIntList, Option.some_inj] at h
    subst h; rfl
  | cons f rest ih =>
    cases hp : pyInt (String.mk f) with
    | none => simp [mapIntList, hp] at h
    | some v =>
      cases hm : mapIntList rest with
      | none => simp [mapIntList, hp, hm] at h
      | some ws =>
        simp only [mapIntList, hp, hm, Option.some_inj] at h
        subst h
        simp [ih hm]

lemma mapIntList_mem_none {l : List (List Char)} {f : List Char}
    (hf : f ∈ l) (h : pyInt (String.mk f) = none) : mapIntList l = none := by
  induction l with
  | nil => simp at hf
  | cons g rest ih =>
    rcases List.mem_cons.mp hf with hg | hg
    · subst hg
      simp [mapIntList, h]
    · cases hp : pyInt (String.mk g) with
      | none => simp [mapIntList, hp]
      | some v => simp [mapIntList, hp, ih hg]

/-- C8: characterization of `timestamp_to_seconds`.  On the colon-split
fields of the input (with everything from the first dot on discarded): two
`int`-convertible fields give minutes and seconds, three give hours, minutes
and seconds, any other field count gives `none`, any field on which `int`
fails gives `none`, and a dot followed by anything leaves the result of the
dot-free prefix unchanged.  Being a total Lean function, it never raises. -/
theorem c8_parse_characterization (s : String) :
    (∀ a b : List Char,
      splitOnColon (s.data.takeWhile (fun c => c ≠ '.')) = [a, b] →
      ∀ m sec : Int, pyInt (String.mk a) = some m → pyInt (String.mk b) = some sec →
        timestamp_to_seconds s = some (m * 60 + sec)) ∧
    (∀ a b c : List Char,
      splitOnColon (s.data.takeWhile (fun c => c ≠ '.')) = [a, b, c] →
      ∀ hh m sec : Int, pyInt (String.mk a) = some hh → pyInt (String.mk b) = some m →
        pyInt (String.mk c) = some sec →
        timestamp_to_seconds s = some (hh * 3600 + m * 60 + sec)) ∧
    ((splitOnColon (s.data.takeWhile (fun c => c ≠ '.'))).length ≠ 2 →
      (splitOnColon (s.data.takeWhile (fun c => c ≠ '.'))).length ≠ 3 →
      timestamp_to_seconds s = none) ∧
    (∀ f ∈ splitOnColon (s.data.takeWhile (fun c => c ≠ '.')),
      pyInt (String.mk f) = none → timestamp_to_seconds s = none) ∧
    (∀ r : List Char, (∀ c ∈ s.data, c ≠ '.') →
      timestamp_to_seconds (String.mk (s.data ++ '.' :: r)) = timestamp_to_seconds s) := by
  refine ⟨?_, ?_, ?_, ?_, ?_⟩
  · intro a b heq m sec hm hsec
    unfold timestamp_to_seconds
    rw [heq]
    simp [mapIntList, hm, hsec]
  · intro a b c heq hh m sec hh1 hm hsec
    unfold timestamp_to_seconds
    rw [heq]
    simp [mapIntList, hh1, hm, hsec]
  · intro h2 h3
    unfold timestamp_to_seconds
    cases hm : mapIntList (splitOnColon (s.data.takeWhile (fun c => c ≠ '.'))) with
    | none => rfl
    | some parts =>
      have hlen := mapIntList_length hm
      rcases parts with _ | ⟨p, _ | ⟨q, _ | ⟨r, _ | ⟨w, tail⟩⟩⟩⟩
      · rfl
      · rfl
      · exfalso; exact h2 (hlen.symm.trans rfl)
      · exfalso; exact h3 (hlen.symm.trans rfl)
      · rfl
  · intro f hf hnone
    unfold timestamp_to_seconds
    rw [mapIntList_mem_none hf hnone]
  · intro r hnd
    have hpred : ∀ c ∈ s.data, (fun c => decide (c ≠ '.')) c = true := by
      intro c hc
      simp [hnd c hc]
    unfold timestamp_to_seconds
    have h1 : (String.mk (s.data ++ '.' :: r)).data.takeWhile (fun c => c ≠ '.')
        = s.data := by
      show (s.data ++ '.' :: r).takeWhile (fun c => decide (c ≠ '.')) = s.data
      rw [takeWhile_all_append _ hpred]
      simp
    have h2 : s.data.takeWhile (fun c => c ≠ '.') = s.data := takeWhile_all hpred
    rw [h1, h2]

/-- Witness for C8 at a concrete two-field input. -/
theorem c8_parse_characterization_witness :
    timestamp_to_seconds (String.mk ['0', '1', ':', '0', '2']) = some (1 * 60 + 2) :=
  (c8_parse_characterization (String.mk ['0', '1', ':', '0', '2'])).1
    ['0', '1'] ['0', '2'] (by decide) 1 2 (by decide) (by decide)

/-!
Shape of a matched timestamp, for the unreachable-warning claim.
-/

lemma matchTwoDigits_eq {cs ds rest : List Char}
    (h : matchTwoDigits cs = some (ds, rest)) :
    ∃ a b, cs = a :: b :: rest ∧ ds = [a, b] ∧ isDig a = true ∧ isDig b = true := by
  match cs with
  | [] => simp [matchTwoDigits] at h
  | [a] => simp [matchTwoDigits] at h
  | a :: b :: r =>
    simp only [matchTwoDigits] at h
    by_cases hd : (isDig a && isDig b) = true
    · rw [if_pos hd] at h
      simp only [Option.some_inj, Prod.mk.injEq] at h
      obtain ⟨hds, hr⟩ := h
      rw [Bool.and_eq_true] at hd
      exact ⟨a, b, by rw [hr], hds.symm, hd.1, hd.2⟩
    · rw [if_neg hd] at h
      exact absurd h (by simp)

lemma matchColon_eq {cs rest : List Char} (h : matchColon cs = some rest) :
    cs = ':' :: rest := by
  match cs with
  | [] => simp [matchColon] at h
  | c :: r =>
    simp only [matchColon] at h
    by_cases hc : c = ':'
    · rw [if_pos hc] at h
      simp only [Option.some_inj] at h
      rw [hc, h]
    · rw [if_neg hc] at h
      exact absurd h (by simp)

lemma takeDigits_digits : ∀ cs : List Char, ∀ c ∈ (takeDigits cs).1, isDig c = true := by
  intro cs
  induction cs with
  | nil => intro c hc; simp [takeDigits] at hc
  | cons a rest ih =>
    intro c hc
    by_cases ha : isDig a = true
    · simp only [takeDigits, if_pos ha, List.mem_cons] at hc
      rcases hc with hc | hc
      · subst hc; exact ha
      · exact ih c hc
    · simp [takeDigits, ha] at hc

lemma matchOptFrac_eq {r fr rest : List Char} (h : matchOptFrac r = some (fr, rest)) :
    fr = [] ∨ ∃ ds, fr = '.' :: ds ∧ ds ≠ [] ∧ ∀ c ∈ ds, isDig c = true := by
  match r with
  | [] =>
    simp only [matchOptFrac, Option.some_inj, Prod.mk.injEq] at h
    exact Or.inl h.1.symm
  | c :: rest2 =>
    simp only [matchOptFrac] at h
    by_cases hc : c = '.'
    · rw [if_pos hc] at h
      by_cases hemp : (takeDigits rest2).1.isEmpty = true
      · rw [if_pos hemp] at h
        exact absurd h (by simp)
      · rw [if_neg hemp] at h
        simp only [Option.some_inj, Prod.mk.injEq] at h
        right
        refine ⟨(takeDigits rest2).1, ?_, ?_, fun x hx => takeDigits_digits rest2 x hx⟩
        · exact h.1.symm
        · intro hnil
          rw [hnil] at hemp
          exact hemp rfl
    · rw [if_neg hc] at h
      simp only [Option.some_inj, Prod.mk.injEq] at h
      exact Or.inl h.1.symm

lemma matchOptThird_eq {r t3 rest : List Char} (h : matchOptThird r = some (t3, rest)) :
    t3 = [] ∨ ∃ e f, t3 = [':', e, f] ∧ isDig e = true ∧ isDig f = true := by
  cases hc : matchColon r with
  | none =>
    simp only [matchOptThird, hc, Option.some_inj, Prod.mk.injEq] at h
    exact Or.inl h.1.symm
  | some r4 =>
    cases hd : matchTwoDigits r4 with
    | none => simp [matchOptThird, hc, hd] at h
    | some pr =>
      obtain ⟨d3, r5⟩ := pr
      obtain ⟨e, f, hr4, hds, he, hf⟩ := matchTwoDigits_eq hd
      simp only [matchOptThird, hc, hd, Option.some_inj, Prod.mk.injEq] at h
      right
      refine ⟨e, f, ?_, he, hf⟩
      rw [← h.1, hds]

lemma matchBracketTs_shape {cs ts rest : List Char}
    (h : matchBracketTs cs = some (ts, rest)) :
    ∃ a b c d t3 fr,
      ts = [a, b, ':', c, d] ++ t3 ++ fr ∧
      isDig a = true ∧ isDig b = true ∧ isDig c = true ∧ isDig d = true ∧
      (t3 = [] ∨ ∃ e f, t3 = [':', e, f] ∧ isDig e = true ∧ isDig f = true) ∧
      (fr = [] ∨ ∃ ds, fr = '.' :: ds ∧ ds ≠ [] ∧ ∀ x ∈ ds, isDig x = true) := by
  cases h1 : matchTwoDigits cs with
  | none => simp [matchBracketTs, h1] at h
  | some pr1 =>
    obtain ⟨d1, r1⟩ := pr1
    obtain ⟨a, b, hcs, hd1, ha, hb⟩ := matchTwoDigits_eq h1
    cases h2 : matchColon r1 with
    | none => simp [matchBracketTs, h1, h2] at h
    | some r2 =>
      cases h3 : matchTwoDigits r2 with
      | none => simp [matchBracketTs, h1, h2, h3] at h
      | some pr2 =>
        obtain ⟨d2, r3⟩ := pr2
        obtain ⟨c, d, hr2, hd2, hc, hd⟩ := matchTwoDigits_eq h3
        cases h4 : matchOptThird r3 with
        | none => simp [matchBracketTs, h1, h2, h3, h4] at h
        | some pr3 =>
          obtain ⟨t3, r5⟩ := pr3
          cases h5 : matchOptFrac r5 with
          | none => simp [matchBracketTs, h1, h2, h3, h4, h5] at h
          | some pr4 =>
            obtain ⟨fr, r6⟩ := pr4
            simp only [matchBracketTs, h1, h2, h3, h4, h5] at h
            split at h
            · exact absurd h (by simp)
            · split at h
              · simp only [Option.some_inj, Prod.mk.injEq] at h
                refine ⟨a, b, c, d, t3, fr, ?_, ha, hb, hc, hd,
                  matchOptThird_eq h4, matchOptFrac_eq h5⟩
                rw [← h.1, hd1, hd2]
                simp
              · exact absurd h (by simp)

lemma ts_digits_ne_colon {x : Char} (hx : isDig x = true) : x ≠ ':' :=
  isDig_ne hx (by decide)

lemma ts_digits_ne_dot {x : Char} (hx : isDig x = true) : x ≠ '.' :=
  isDig_ne hx (by decide)

lemma ts_parse_of_shape {tsChars : List Char}
    (hsh : ∃ a b c d t3 fr,
      tsChars = [a, b, ':', c, d] ++ t3 ++ fr ∧
      isDig a = true ∧ isDig b = true ∧ isDig c = true ∧ isDig d = true ∧
      (t3 = [] ∨ ∃ e f, t3 = [':', e, f] ∧ isDig e = true ∧ isDig f = true) ∧
      (fr = [] ∨ ∃ ds, fr = '.' :: ds ∧ ds ≠ [] ∧ ∀ x ∈ ds, isDig x = true)) :
    (timestamp_to_seconds (String.mk tsChars)).isSome = true := by
  obtain ⟨a, b, c, d, t3, fr, hts, ha, hb, hc, hd, ht3, hfr⟩ := hsh
  have hcore : ∀ x ∈ [a, b, ':', c, d] ++ t3, (fun y => decide (y ≠ '.')) x = true := by
    intro x hx
    simp only [List.mem_append, List.mem_cons, List.not_mem_nil, or_false] at hx
    simp only [decide_eq_true_eq]
    rcases hx with (hx | hx | hx | hx | hx) | hx
    · subst hx; exact ts_digits_ne_dot ha
    · subst hx; exact ts_digits_ne_dot hb
    · subst hx; decide
    · subst hx; exact ts_digits_ne_dot hc
    · subst hx; exact ts_digits_ne_dot hd
    · rcases ht3 with h3 | ⟨e, f, h3, he, hf⟩
      · rw [h3] at hx; simp at hx
      · rw [h3] at hx
        simp only [List.mem_cons, List.not_mem_nil, or_false] at hx
        rcases hx with hx | hx | hx
        · subst hx; decide
        · subst hx; exact ts_digits_ne_dot he
        · subst hx; exact ts_digits_ne_dot hf
  have htw : tsChars.takeWhile (fun y => decide (y ≠ '.'))
      = [a, b, ':', c, d] ++ t3 := by
    rw [hts]
    rcases hfr with hf0 | ⟨ds, hf0, hdne, hdall⟩
    · rw [hf0, List.append_nil]
      exact takeWhile_all hcore
    · rw [hf0, takeWhile_all_append _ hcore]
      simp
  have habne : ∀ x ∈ ([a, b] : List Char), x ≠ ':' := by
    intro x hx
    simp only [List.mem_cons, List.not_mem_nil, or_false] at hx
    rcases hx with hx | hx
    · subst hx; exact ts_digits_ne_colon ha
    · subst hx; exact ts_digits_ne_colon hb
  have hcdne : ∀ x ∈ ([c, d] : List Char), x ≠ ':' := by
    intro x hx
    simp only [List.mem_cons, List.not_mem_nil, or_false] at hx
    rcases hx with hx | hx
    · subst hx; exact ts_digits_ne_colon hc
    · subst hx; exact ts_digits_ne_colon hd
  have hab : pyInt (String.mk [a, b]) = some (digitsVal [a, b] : Int) :=
    pyInt_digits (by simp) (by
      intro x hx
      simp only [List.mem_cons, List.not_mem_nil, or_false] at hx
      rcases hx with hx | hx
      · subst hx; exact ha
      · subst hx; exact hb)
  have hcdv : pyInt (String.mk [c, d]) = some (digitsVal [c, d] : Int) :=
    pyInt_digits (by simp) (by
      intro x hx
      simp only [List.mem_cons, List.not_mem_nil, or_false] at hx
      rcases hx with hx | hx
      · subst hx; exact hc
      · subst hx; exact hd)
  unfold timestamp_to_seconds
  show (match mapIntList (splitOnColon (tsChars.takeWhile fun y => decide (y ≠ '.'))) with
    | none => none
    | some [h, m, s] => some (h * 3600 + m * 60 + s)
    | some [m, s] => some (m * 60 + s)
    | some _ => none).isSome = true
  rw [htw]
  rcases ht3 with h3 | ⟨e, f, h3, he, hf⟩
  · subst h3
    rw [List.append_nil]
    have hsp2 : splitOnColon [a, b, ':', c, d] = [[a, b], [c, d]] := by
      rw [show ([a, b, ':', c, d] : List Char) = [a, b] ++ ':' :: [c, d] from rfl]
      rw [splitOnColon_append _ habne, splitOnColon_no_colon hcdne]
    rw [hsp2]
    simp [mapIntList, hab, hcdv]
  · subst h3
    have hefne : ∀ x ∈ ([e, f] : List Char), x ≠ ':' := by
      intro x hx
      simp only [List.mem_cons, List.not_mem_nil, or_false] at hx
      rcases hx with hx | hx
      · subst hx; exact ts_digits_ne_colon he
      · subst hx; exact ts_digits_ne_colon hf
    have hefv : pyInt (String.mk [e, f]) = some (digitsVal [e, f] : Int) :=
      pyInt_digits (by simp) (by
        intro x hx
        simp only [List.mem_cons, List.not_mem_nil, or_false] at hx
        rcases hx with hx | hx
        · subst hx; exact he
        · subst hx; exact hf)
    have hsp3 : splitOnColon ([a, b, ':', c, d] ++ [':', e, f])
        = [[a, b], [c, d], [e, f]] := by
      rw [show ([a, b, ':', c, d] ++ [':', e, f] : List Char)
          = [a, b] ++ ':' :: ([c, d] ++ ':' :: [e, f]) from rfl]
      rw [splitOnColon_append _ habne, splitOnColon_append _ hcdne,
        splitOnColon_no_colon hefne]
    rw [hsp3]
    simp [mapIntList, hab, hcdv, hefv]

/-- A successful caption match has a nonempty line. -/
lemma captionMatch_ne_empty {s : String} {g : String × String × String}
    (h : captionMatch s = some g) : s ≠ "" := by
  rintro rfl
  rw [(by decide : captionMatch "" = none)] at h
  exact Option.noConfusion h

/-- C10: every timestamp text captured by the caption pattern is parsed
successfully by `timestamp_to_seconds`, so the warning-and-skip branch of
`process_transcript` is unreachable and no caption-matched line is ever
dropped. -/
theorem c10_matched_timestamp_parses (line ts sp tx : String)
    (h : captionMatch line = some (ts, sp, tx)) :
    (timestamp_to_seconds ts).isSome = true := by
  cases hld : line.data with
  | nil => simp [captionMatch, hld] at h
  | cons c cs =>
    by_cases hc : c = '['
    · cases hb : matchBracketTs cs with
      | none => simp [captionMatch, hld, hc, hb] at h
      | some pr =>
        obtain ⟨tsChars, rest⟩ := pr
        cases hs : matchSpeakerText rest with
        | none => simp [captionMatch, hld, hc, hb, hs] at h
        | some pg =>
          obtain ⟨g2, g3⟩ := pg
          simp only [captionMatch, hld, hc, if_true, hb, hs, Option.some_inj,
            Prod.mk.injEq] at h
          rw [← h.1]
          exact ts_parse_of_shape (matchBracketTs_shape hb)
    · simp [captionMatch, hld, hc] at h

/-- Witness for C10 at a concrete matched line. -/
theorem c10_matched_timestamp_parses_witness :
    (timestamp_to_seconds (String.mk ['0', '0', ':', '0', '0'])).isSome = true :=
  c10_matched_timestamp_parses (String.mk "[00:00] A: Hi".data)
    (String.mk ['0', '0', ':', '0', '0']) "A" "Hi" (by decide)

/-!
Step lemmas for the segment-merging loop.
-/

lemma processLine_open (maxd : Int) (st : PState) (l : String)
    (ts spr txr : String) (secs : Int)
    (hcm : captionMatch (pyStrip l) = some (ts, spr, txr))
    (hts : timestamp_to_seconds ts = some secs)
    (hsp : st.current_speaker = none) :
    processLine maxd st l =
      { output_lines := st.output_lines,
        current_segment_start_ts_str := some (seconds_to_timestamp (some secs)),
        current_segment_start_seconds := some secs,
        current_speaker := some (pyStrip spr),
        current_text_parts := [pyStrip txr] } := by
  have hne : pyStrip l ≠ "" := captionMatch_ne_empty hcm
  simp [processLine, hne, hcm, hts, hsp]

lemma processLine_newseg (maxd : Int) (st : PState) (l : String)
    (ts spr txr : String) (secs : Int) (cs : String)
    (hcm : captionMatch (pyStrip l) = some (ts, spr, txr))
    (hts : timestamp_to_seconds ts = some secs)
    (hsp : st.current_speaker = some cs)
    (hstart : pyStrip spr ≠ cs ∨
      ∃ t0, st.current_segment_start_seconds = some t0 ∧ secs - t0 > maxd) :
    processLine maxd st l =
      { output_lines := st.output_lines ++ [flushLine st],
        current_segment_start_ts_str := some (seconds_to_timestamp (some secs)),
        current_segment_start_seconds := some secs,
        current_speaker := some (pyStrip spr),
        current_text_parts := [pyStrip txr] } := by
  have hne : pyStrip l ≠ "" := captionMatch_ne_empty hcm
  rcases hstart with hdiff | ⟨t0, ht0, hgap⟩
  · simp [processLine, hne, hcm, hts, hsp, hdiff]
  · by_cases hdiff : pyStrip spr = cs
    · simp [processLine, hne, hcm, hts, hsp, hdiff, ht0, hgap]
    · simp [processLine, hne, hcm, hts, hsp, hdiff]

lemma processLine_extend (maxd : Int) (st : PState) (l : String)
    (ts spr txr : String) (secs : Int) (cs : String) (t0 : Int)
    (hcm : captionMatch (pyStrip l) = some (ts, spr, txr))
    (hts : timestamp_to_seconds ts = some secs)
    (hsp : st.current_speaker = some cs)
    (hsame : pyStrip spr = cs)
    (ht0 : st.current_segment_start_seconds = some t0)
    (hgap : ¬(secs - t0 > maxd)) :
    processLine maxd st l =
      if pyStrip txr = "" then st
      else { st with current_text_parts := st.current_text_parts ++ [pyStrip txr] } := by
  have hne : pyStrip l ≠ "" := captionMatch_ne_empty hcm
  simp [processLine, hne, hcm, hts, hsp, hsame, ht0, hgap]

/-- C5: a line that is nonempty after stripping and does not match the
caption pattern is emitted as its own output line, right after the flush of
any open segment; the open segment is closed, so the passthrough is merged
with no caption on either side. -/
theorem c5_passthrough_emitted (maxd : Int) (st : PState) (l : String)
    (hne : pyStrip l ≠ "") (hcm : captionMatch (pyStrip l) = none) :
    (processLine maxd st l).output_lines
        = (if st.current_speaker.isSome then st.output_lines ++ [flushLine st]
           else st.output_lines) ++ [pyStrip l]
      ∧ (processLine maxd st l).current_speaker = none := by
  cases hq : st.current_speaker with
  | none => constructor <;> simp [processLine, hne, hcm, hq]
  | some cs => constructor <;> simp [processLine, hne, hcm, hq]

/-- Witness for C5: a header line between captions, with an open segment. -/
theorem c5_passthrough_emitted_witness :
    (processLine 30 ⟨[], some "00:00:00", some 0, some "A", ["Hi"]⟩
        "Some header text").output_lines
      = ["[00:00:00] A: Hi", "Some header text"]
      ∧ (processLine 30 ⟨[], some "00:00:00", some 0, some "A", ["Hi"]⟩
        "Some header text").current_speaker = none := by
  have h := c5_passthrough_emitted 30 ⟨[], some "00:00:00", some 0, some "A", ["Hi"]⟩
    "Some header text" (by decide) (by decide)
  exact ⟨h.1.trans (by decide), h.2⟩

/-- C4: a caption whose (stripped) speaker differs from the open Segment
speaker always flushes the open segment and starts a new one, whatever the
timestamps are (equal and decreasing included). -/
theorem c4_speaker_change_new_segment (maxd : Int) (st : PState) (l : String)
    (ts spr txr : String) (secs : Int) (cs : String)
    (hcm : captionMatch (pyStrip l) = some (ts, spr, txr))
    (hts : timestamp_to_seconds ts = some secs)
    (hsp : st.current_speaker = some cs)
    (hdiff : pyStrip spr ≠ cs) :
    processLine maxd st l =
      { output_lines := st.output_lines ++ [flushLine st],
        current_segment_start_ts_str := some (seconds_to_timestamp (some secs)),
        current_segment_start_seconds := some secs,
        current_speaker := some (pyStrip spr),
        current_text_parts := [pyStrip txr] } :=
  processLine_newseg maxd st l ts spr txr secs cs hcm hts hsp (Or.inl hdiff)

/-- Witness for C4 with an identical timestamp on the speaker change. -/
theorem c4_speaker_change_new_segment_witness :
    processLine 30 ⟨[], some "00:00:05", some 5, some "A", ["Hi"]⟩ "[00:05] B: Hey"
      = ⟨["[00:00:05] A: Hi"], some "00:00:05", some 5, some "B", ["Hey"]⟩ := by
  have h := c4_speaker_change_new_segment 30
    ⟨[], some "00:00:05", some 5, some "A", ["Hi"]⟩ "[00:05] B: Hey"
    "00:05" "B" "Hey" 5 "A" (by decide) (by decide) (by decide) (by decide)
  exact h.trans (by decide)

/-- C3: with the same speaker, the window check compares the new caption
seconds against the segment start seconds only: a gap above
`max_segment_duration` flushes and reopens, a gap within it extends in place;
and the concrete two-line scenario yields two output lines at the normalized
timestamps 00:00:00 and 00:00:40. -/
theorem c3_window_from_segment_start :
    (∀ (maxd : Int) (st : PState) (l : String) (ts spr txr : String)
      (secs t0 : Int) (cs : String),
      captionMatch (pyStrip l) = some (ts, spr, txr) →
      timestamp_to_seconds ts = some secs →
      st.current_speaker = some cs →
      pyStrip spr = cs →
      st.current_segment_start_seconds = some t0 →
      secs - t0 > maxd →
      processLine maxd st l =
        { output_lines := st.output_lines ++ [flushLine st],
          current_segment_start_ts_str := some (seconds_to_timestamp (some secs)),
          current_segment_start_seconds := some secs,
          current_speaker := some (pyStrip spr),
          current_text_parts := [pyStrip txr] }) ∧
    (∀ (maxd : Int) (st : PState) (l : String) (ts spr txr : String)
      (secs t0 : Int) (cs : String),
      captionMatch (pyStrip l) = some (ts, spr, txr) →
      timestamp_to_seconds ts = some secs →
      st.current_speaker = some cs →
      pyStrip spr = cs →
      st.current_segment_start_seconds = some t0 →
      ¬(secs - t0 > maxd) →
      processLine maxd st l =
        if pyStrip txr = "" then st
        else { st with current_text_parts := st.current_text_parts ++ [pyStrip txr] }) ∧
    process_transcript "[00:00] A: Hi\n[00:40] A: still there" 30
      = "[00:00:00] A: Hi\n[00:00:40] A: still there" := by
  refine ⟨?_, ?_, ?_⟩
  · intro maxd st l ts spr txr secs t0 cs hcm hts hsp hsame ht0 hgap
    exact processLine_newseg maxd st l ts spr txr secs cs hcm hts hsp
      (Or.inr ⟨t0, ht0, hgap⟩)
  · intro maxd st l ts spr txr secs t0 cs hcm hts hsp hsame ht0 hgap
    exact processLine_extend maxd st l ts spr txr secs cs t0 hcm hts hsp hsame ht0 hgap
  · decide

/-- Witness for C3: the over-window step at concrete state and line. -/
theorem c3_window_from_segment_start_witness :
    processLine 30 ⟨[], some "00:00:00", some 0, some "A", ["Hi"]⟩
        "[00:40] A: still there"
      = ⟨["[00:00:00] A: Hi"], some "00:00:40", some 40, some "A", ["still there"]⟩ := by
  have h := c3_window_from_segment_start.1 30
    ⟨[], some "00:00:00", some 0, some "A", ["Hi"]⟩ "[00:40] A: still there"
    "00:40" "A" "still there" 40 0 "A"
    (by decide) (by decide) (by decide) (by decide) (by decide) (by decide)
  exact h.trans (by decide)

lemma foldl_extend (maxd : Int) (sp : String) (s0 : Int) (tstr : String) :
    ∀ (lines : List String) (out parts : List String),
    (∀ l ∈ lines, ∃ ts spr txr secs,
      captionMatch (pyStrip l) = some (ts, spr, txr) ∧ pyStrip spr = sp ∧
      timestamp_to_seconds ts = some secs ∧ secs - s0 ≤ maxd) →
    ∃ parts2,
      lines.foldl (processLine maxd) ⟨out, some tstr, some s0, some sp, parts⟩
        = ⟨out, some tstr, some s0, some sp, parts2⟩ := by
  intro lines
  induction lines with
  | nil => intro out parts h; exact ⟨parts, rfl⟩
  | cons l rest ih =>
    intro out parts h
    obtain ⟨ts, spr, txr, secs, hcm, hspr, hts, hwin⟩ := h l (List.mem_cons_self l rest)
    have hstep := processLine_extend maxd ⟨out, some tstr, some s0, some sp, parts⟩ l
      ts spr txr secs sp s0 hcm hts rfl hspr rfl (by omega)
    rw [List.foldl_cons, hstep]
    by_cases htx : pyStrip txr = ""
    · rw [if_pos htx]
      exact ih out parts (fun x hx => h x (List.mem_cons_of_mem l hx))
    · rw [if_neg htx]
      exact ih out (parts ++ [pyStrip txr]) (fun x hx => h x (List.mem_cons_of_mem l hx))

/-- C6: a run of caption lines with one speaker, all within the window of the
first line, merges to exactly one output line whose timestamp text is the
normalized `seconds_to_timestamp` rendering of the first line's parsed
seconds, not the input timestamp text. -/
theorem c6_merged_timestamp_normalized (maxd : Int) (l0 : String)
    (rest : List String) (ts0 spr0 txr0 : String) (s0 : Int)
    (h0 : captionMatch (pyStrip l0) = some (ts0, spr0, txr0))
    (hts0 : timestamp_to_seconds ts0 = some s0)
    (hrest : ∀ l ∈ rest, ∃ ts spr txr secs,
      captionMatch (pyStrip l) = some (ts, spr, txr) ∧ pyStrip spr = pyStrip spr0 ∧
      timestamp_to_seconds ts = some secs ∧ secs - s0 ≤ maxd) :
    ∃ body, process_lines maxd (l0 :: rest)
      = ["[" ++ seconds_to_timestamp (some s0) ++ "] " ++ pyStrip spr0 ++ ": "
          ++ body] := by
  unfold process_lines
  rw [List.foldl_cons,
    processLine_open maxd initState l0 ts0 spr0 txr0 s0 h0 hts0 rfl]
  obtain ⟨parts2, hfold⟩ := foldl_extend maxd (pyStrip spr0) s0
    (seconds_to_timestamp (some s0)) rest initState.output_lines [pyStrip txr0] hrest
  rw [hfold]
  refine ⟨String.intercalate " " (parts2.filter (fun t => t ≠ "")), ?_⟩
  simp [flushFinal, flushLine, initState]

/-- Witness for C6: two same-speaker captions two seconds apart. -/
theorem c6_merged_timestamp_normalized_witness :
    ∃ body, process_lines 30 ["[00:00] A: Hi", "[00:02] A: there"]
      = ["[" ++ seconds_to_timestamp (some 0) ++ "] " ++ pyStrip "A" ++ ": "
          ++ body] := by
  refine c6_merged_timestamp_normalized 30 "[00:00] A: Hi" ["[00:02] A: there"]
    "00:00" "A" "Hi" 0 (by decide) (by decide) ?_
  intro l hl
  simp only [List.mem_singleton] at hl
  subst hl
  exact ⟨"00:02", "A", "there", 2, by decide, by decide, by decide, by decide⟩

/-- C1: the first concrete scenario, two merged captions of speaker A within
the window followed by one caption of speaker B, with normalized timestamps. -/
theorem c1_scenario_merge :
    process_transcript "[00:00] A: Hi\n[00:02] A: there\n[00:05] B: Hey" 30
      = "[00:00:00] A: Hi there\n[00:00:05] B: Hey" := by decide

/-- C2 (counterexample): the claim says the line with the unusable timestamp
text `[bad]` is dropped from the output entirely, which would leave only the
valid caption; the code disagrees. -/
theorem c2_bad_line_not_dropped :
    process_transcript "[bad] A: broken\n[00:05] B: Hey" 30
      ≠ "[00:00:05] B: Hey" := by decide

/-- C2 (amended): a line such as `[bad] A: broken` does not match the caption
pattern at all (its bracket text is not a `dd:dd` shape), so it is emitted
verbatim as a passthrough line in its original position, and the valid
caption after it appears normally; no line is dropped. -/
theorem c2_bad_line_passthrough :
    process_transcript "[bad] A: broken\n[00:05] B: Hey" 30
      = "[bad] A: broken\n[00:00:05] B: Hey" := by decide

end Transcribe
